import Mathlib

/-!
Shallow embedding of the conversation session orchestrator of the
slackbot-mcp-host repository: the session registry and dedup middleware
(internal/interfaces/session.go, internal/interfaces/middleware.go, and the
event handler), and the recursive execution loop with its retry policy and
tool dispatcher (internal/app/usecase.go).

Effectful Go code is modelled by explicit state passing: outcomes of external
calls (Slack post, LLM provider attempts, MCP tool backends) are inputs to the
embedded functions, and the side effects the core performs are returned as an
explicit trace of `Effect` values. Logging (slog) is not modelled.
-/

namespace SlackbotMCPHost

/-- Substring check on the character lists of two strings: does the second
list occur somewhere inside the first, starting at its head? -/
def leadsWith : List Char → List Char → Bool
  | _, [] => true
  | [], _ :: _ => false
  | a :: as, b :: bs => (a == b) && leadsWith as bs

/-- Substring search over character lists: does the second list occur as a
contiguous run anywhere in the first? -/
def containsChars : List Char → List Char → Bool
  | [], sub => sub.isEmpty
  | a :: as, sub => leadsWith (a :: as) sub || containsChars as sub

/-- strings.Contains of the Go standard library, as used by the retry
classification in usecase.go. -/
def stringsContains (s sub : String) : Bool :=
  containsChars s.data sub.data

/-- Left-to-right splitting scan over character lists: at each position,
when the (non-empty) separator is a leading match the accumulated piece is
cut and the separator consumed, otherwise one character is shifted onto the
accumulator. The fuel argument only bounds the recursion and never runs out
when it starts at the subject length. -/
def splitCharsAux (sep : List Char) : Nat → List Char → List Char →
    List (List Char)
  | _, [], acc => [acc.reverse]
  | 0, s, acc => [acc.reverse ++ s]
  | fuel + 1, a :: as, acc =>
    if leadsWith (a :: as) sep then
      acc.reverse :: splitCharsAux sep fuel (List.drop (sep.length - 1) as) []
    else splitCharsAux sep fuel as (a :: acc)

/-- strings.Split of the Go standard library for a non-empty separator, as
used by handleToolCall to split a tool name on the double underscore. -/
def stringsSplit (s sep : String) : List String :=
  (splitCharsAux sep.data s.data.length s.data []).map (fun l => ⟨l⟩)

/-- strings.TrimSpace of the Go standard library: drop whitespace from both
ends (the whitespace classes of Go and Lean agree on every character this
development produces). -/
def trimSpace (s : String) : String :=
  ⟨((s.data.dropWhile Char.isWhitespace).reverse.dropWhile
    Char.isWhitespace).reverse⟩

/-- Session of internal/interfaces/session.go: the source pairs a cancellable
context with the mentioning user; the cancellation context is not
representable in a pure embedding and no claim depends on it, so only the
user is kept. -/
structure Session where
  user : String
deriving Repr, DecidableEq

/-- The sessions sync.Map, modelled as an association list from key to
Session. -/
abbrev Registry := List (String × Session)

/-- sessionKey of internal/interfaces/session.go. -/
def sessionKey (channel ts user : String) : String :=
  channel ++ "#" ++ ts ++ "#" ++ user

/-- sync.Map.Load on the sessions map. -/
def regLoad (reg : Registry) (key : String) : Option Session :=
  (reg.find? (fun p => p.1 == key)).map (fun p => p.2)

/-- sync.Map.LoadOrStore on the sessions map: returns the resulting map, the
actual stored value, and whether the key was already present; stores the
given value only when the key was absent. -/
def loadOrStore (reg : Registry) (key : String) (s : Session) :
    Registry × Session × Bool :=
  match regLoad reg key with
  | Option.some existing => (reg, existing, true)
  | Option.none => (reg ++ [(key, s)], s, false)

/-- sync.Map.Delete on the sessions map, as performed by the event handler
after the loop terminates. -/
def regDelete (reg : Registry) (key : String) : Registry :=
  reg.filter (fun p => p.1 != key)

/-- Outcome of one middleware invocation: either a direct response with a
status code and no body, or the request was handed to the next handler. -/
inductive MWOutcome where
  | noContent (status : Nat)
  | nextRan
deriving Repr, DecidableEq

/-- NewSessionMiddleware of internal/interfaces/middleware.go at the
app-mention path: register-if-absent on the conversation key built from the
channel, the event timestamp and the user; when the key was already present
the request is answered with 202 Accepted and the next handler is not run. -/
def sessionMiddlewareStep (reg : Registry) (channel ts user : String)
    (session : Session) : Registry × MWOutcome :=
  let r := loadOrStore reg (sessionKey channel ts user) session
  if r.2.2 then (r.1, MWOutcome.noContent 202)
  else (r.1, MWOutcome.nextRan)

/-- One item of an MCP tool-call result content list. The source inspects
each item as a generic JSON-decoded value: the only observable facts are
whether the item is a map carrying a "text" key and the formatted value of
that key (usecase.go, handleToolCall). textField is none when the item is not
map-shaped or carries no "text" key. -/
structure MCPContentItem where
  textField : Option String
deriving Repr, DecidableEq

/-- Content payload of a history.ContentBlock (an interface-typed field in
the source). usecase.go stores either nothing, a single synthesized text
block carrying an error message, or the raw backend result items. -/
inductive BlockContent where
  | empty
  | errText (text : String)
  | items (items : List MCPContentItem)
deriving Repr, DecidableEq

/-- history.ContentBlock of mcphost pkg/history, restricted to the fields
usecase.go reads and writes. -/
structure ContentBlock where
  type : String
  id : String
  toolUseID : String
  name : String
  input : String
  text : String
  content : BlockContent
deriving Repr, DecidableEq

/-- A text content block as built in Execute and in the text branch of
execute. -/
def textBlock (t : String) : ContentBlock :=
  ⟨"text", "", "", "", "", t, BlockContent.empty⟩

/-- The tool_use content block appended by handleToolCall after the arguments
marshal successfully. -/
def toolUseBlock (id name input : String) : ContentBlock :=
  ⟨"tool_use", id, "", name, input, "", BlockContent.empty⟩

/-- The tool_result content block synthesized by handleToolCall when the
backend call fails. -/
def toolResultErrBlock (toolUseID errMsg : String) : ContentBlock :=
  ⟨"tool_result", "", toolUseID, "", "", "", BlockContent.errText errMsg⟩

/-- The tool_result content block synthesized by handleToolCall on a backend
success with non-empty result content. -/
def toolResultOkBlock (toolUseID : String) (items : List MCPContentItem)
    (flat : String) : ContentBlock :=
  ⟨"tool_result", "", toolUseID, "", "", flat, BlockContent.items items⟩

/-- history.HistoryMessage of mcphost pkg/history. -/
structure HistoryMessage where
  role : String
  content : List ContentBlock
deriving Repr, DecidableEq

/-- llm.ToolCall as consumed by usecase.go: id, name, and the argument
object. The argument object is kept as its canonical JSON serialization when
json.Marshal succeeds on it; none models a marshal failure. The unmarshal of
that canonical form back into a generic map (usecase.go line 249) cannot fail
for a map-valued argument object and is modelled as the identity. -/
structure ToolCall where
  id : String
  name : String
  arguments : Option String
deriving Repr, DecidableEq

/-- llm.Message as consumed by usecase.go: role, text content, requested tool
calls, and usage counters (the counters are only logged by the source). -/
structure LLMMessage where
  role : String
  content : String
  toolCalls : List ToolCall
  inputTokens : Nat
  outputTokens : Nat
deriving Repr, DecidableEq

/-- Side effects performed by the core, recorded as an explicit trace: chat
posts, updates and deletions, provider calls (with the history they were
given), backend tool invocations, and retry sleeps. -/
inductive Effect where
  | post (channel text threadTs : String)
  | update (channel messageID text : String)
  | delete (channel messageID : String)
  | llmCall (prompt : String) (history : List HistoryMessage)
  | backendCall (server tool args : String)
  | sleep (ns : Nat)
deriving Repr, DecidableEq

/-- An MCP tool backend (client.MCPClient.CallTool): tool name and canonical
argument form in, result content list or error out. -/
abbrev Backend := String → String → Except String (List MCPContentItem)

/-- The flattened result text derived in handleToolCall: for every item that
is a map with a "text" key, the formatted value followed by a space is
appended, and the final string is trimmed (strings.TrimSpace). -/
def flattenResultText (items : List MCPContentItem) : String :=
  trimSpace (items.foldl (fun acc it =>
    match it.textField with
    | Option.some t => acc ++ t ++ " "
    | Option.none => acc) "")

/-- handleToolCall of internal/app/usecase.go: marshal the arguments (failure
skips the call entirely), append the tool_use block, split the name on the
double-underscore delimiter (any split arity other than two skips dispatch),
resolve the server, invoke the backend, and normalize the outcome into at
most one tool_result block. The returned triple is (message content blocks,
tool result blocks, performed backend invocations). -/
def handleToolCall (mcpClients : List (String × Backend))
    (toolCall : ToolCall) :
    List ContentBlock × List ContentBlock × List Effect :=
  match toolCall.arguments with
  | Option.none => ([], [], [])
  | Option.some input =>
    let messageContent := [toolUseBlock toolCall.id toolCall.name input]
    match stringsSplit toolCall.name "__" with
    | [serverName, toolName] =>
      match mcpClients.find? (fun p => p.1 == serverName) with
      | Option.none => (messageContent, [], [])
      | Option.some client =>
        match client.2 toolName input with
        | Except.error e =>
          (messageContent,
           [toolResultErrBlock toolCall.id
             ("Error calling tool " ++ toolName ++ ": " ++ e)],
           [Effect.backendCall serverName toolName input])
        | Except.ok items =>
          if items = [] then
            (messageContent, [], [Effect.backendCall serverName toolName input])
          else
            (messageContent,
             [toolResultOkBlock toolCall.id items (flattenResultText items)],
             [Effect.backendCall serverName toolName input])
    | _ => (messageContent, [], [])

/-- The tool-call loop of execute (usecase.go lines 155-163): dispatch every
requested tool call and concatenate the message content blocks, the tool
result blocks, and the performed backend invocations. -/
def handleToolCalls (mcpClients : List (String × Backend)) :
    List ToolCall → List ContentBlock × List ContentBlock × List Effect
  | [] => ([], [], [])
  | tc :: rest =>
    let r := handleToolCall mcpClients tc
    let rs := handleToolCalls mcpClients rest
    (r.1 ++ rs.1, r.2.1 ++ rs.2.1, r.2.2 ++ rs.2.2)

/-- UseCase.postMessage: formats the text as "<@user> \n<message>" and posts
it to the thread; the transport outcome (message id or error) is an input of
the embedding. -/
def postMessage (user channel message threadTs : String)
    (result : Except String String) : Except String String × List Effect :=
  (result, [Effect.post channel ("<@" ++ user ++ "> \n" ++ message) threadTs])

/-- UseCase.updateMessage: formats the text as "<@user> \n<message>" and
updates the message in place. Every call site in the source either discards
the returned error or leaves it unchecked, and the id the Slack client
returns identifies the same message, so the update is modelled as returning
the unchanged id. -/
def updateMessage (user channel messageID message : String) :
    String × List Effect :=
  (messageID,
   [Effect.update channel messageID ("<@" ++ user ++ "> \n" ++ message)])

/-- durationForLLMRateLimitExceeded of usecase.go: time.Minute plus 30
seconds, in nanoseconds. -/
def durationForLLMRateLimitExceeded : Nat := 90000000000

/-- Modelled from the spec: the exponential backoff schedule of the external
retry library (spec section 4.4, "delay between attempts follows exponential
backoff"); the library source is not part of this repository. Its default
schedule starts at 100 milliseconds and doubles per attempt; values are in
nanoseconds. -/
def backOffDelay (n : Nat) : Nat := 100000000 * 2 ^ n

/-- The waiting text formatted by the custom delay function in usecase.go:
fmt.Sprintf("⌛ Rate limit exceeded. waiting for %d nanoseconds...", d) where
%d prints the nanosecond count of the duration. -/
def rateLimitWaitText (duration : Nat) : String :=
  "⌛ Rate limit exceeded. waiting for " ++ toString duration ++
    " nanoseconds..."

/-- The custom retry.DelayType closure of usecase.go (lines 120-129): compute
the exponential backoff; when the error signals rate limiting, update the
placeholder with the waiting text for the computed (pre-floor) backoff and
raise the delay to the 90-second floor when it is below it. Returns the delay
and the update effects performed while computing it. -/
def llmRetryDelay (user channel messageID : String) (n : Nat) (err : String) :
    Nat × List Effect :=
  let duration := backOffDelay n
  if stringsContains err "rate_limit_error" then
    let effs := (updateMessage user channel messageID
      (rateLimitWaitText duration)).2
    if duration < durationForLLMRateLimitExceeded then
      (durationForLLMRateLimitExceeded, effs)
    else (duration, effs)
  else (duration, [])

/-- Modelled from the spec: the bounded-retry combinator of the external
retry library wrapping the provider call (spec section 4.4); the library
source is not part of this repository. Up to fuel attempts are made (the
source configures 5): each attempt is preceded by the provider-call effect;
a success is returned at once; a failing attempt is retried only when
shouldRetry accepts the error and attempts remain, in which case the delay
function runs (its effects are recorded) and the computed delay is slept;
exhausting all attempts, or an error shouldRetry rejects, surfaces the last
error. attemptOf gives the provider outcome offered to each attempt index. -/
def retryGo (attemptOf : Nat → Except String LLMMessage)
    (shouldRetry : String → Bool) (delayFn : Nat → String → Nat × List Effect)
    (callEff : Effect) : Nat → Nat → Except String LLMMessage × List Effect
  | _, 0 => (Except.error "", [])
  | n, fuel + 1 =>
    match attemptOf n with
    | Except.ok m => (Except.ok m, [callEff])
    | Except.error e =>
      if shouldRetry e && fuel != 0 then
        let d := delayFn n e
        let r := retryGo attemptOf shouldRetry delayFn callEff (n + 1) fuel
        (r.1, callEff :: (d.2 ++ Effect.sleep d.1 :: r.2))
      else (Except.error e, [callEff])

/-- Script for one iteration of the execution loop: the transport outcome of
the placeholder post and the provider outcome offered to each retry
attempt. -/
structure TurnScript where
  postResult : Except String String
  attemptOf : Nat → Except String LLMMessage

/-- ErrEmptyPrompt of usecase.go. -/
def ErrEmptyPrompt : String := "empty prompt"

/-- UseCase.execute of internal/app/usecase.go, the recursive execution loop:
post the placeholder (a post failure is returned at once), call the provider
under the retry policy (exhaustion updates the placeholder with the failure
glyph and returns the error), update the placeholder with the model text or
delete it when the text is empty, dispatch every requested tool call, append
the assistant message and one history entry per tool result, and recurse with
an empty prompt while tool results exist. The script list supplies the
external outcomes consumed by each iteration; running past its end is the
distinguished script-exhausted error. -/
def execute (mcpClients : List (String × Backend))
    (user channel threadTs : String) :
    List TurnScript → String → List HistoryMessage →
      Except String Unit × List Effect
  | [], _, _ => (Except.error "script exhausted", [])
  | turn :: rest, prompt, messages =>
    let post := postMessage user channel "⌛ Thinking..." threadTs
      turn.postResult
    match post.1 with
    | Except.error e => (Except.error e, post.2)
    | Except.ok messageID =>
      let r := retryGo turn.attemptOf
        (fun e => stringsContains e "overloaded_error")
        (llmRetryDelay user channel messageID)
        (Effect.llmCall prompt messages) 0 5
      match r.1 with
      | Except.error e =>
        (Except.error e,
         post.2 ++ r.2 ++ (updateMessage user channel messageID "😵‍💫‍").2)
      | Except.ok message =>
        let tb :=
          if message.content ≠ "" then
            ([textBlock message.content],
             (updateMessage user channel messageID message.content).2)
          else (([] : List ContentBlock), [Effect.delete channel messageID])
        let hr := handleToolCalls mcpClients message.toolCalls
        let messages1 := messages ++
          [(⟨message.role, tb.1 ++ hr.1⟩ : HistoryMessage)]
        if hr.2.1 ≠ [] then
          let messages2 := messages1 ++
            hr.2.1.map (fun t => (⟨"tool", [t]⟩ : HistoryMessage))
          let contRes := execute mcpClients user channel threadTs rest ""
            messages2
          (contRes.1, post.2 ++ r.2 ++ tb.2 ++ hr.2.2 ++ contRes.2)
        else (Except.ok (), post.2 ++ r.2 ++ tb.2 ++ hr.2.2)

/-- UseCase.Execute of internal/app/usecase.go: reject an empty prompt before
any side effect, seed the history with the user prompt, and enter the loop. -/
def Execute (mcpClients : List (String × Backend)) (script : List TurnScript)
    (user channel threadTs prompt : String) :
    Except String Unit × List Effect :=
  if prompt = "" then (Except.error ErrEmptyPrompt, [])
  else
    execute mcpClients user channel threadTs script prompt
      [⟨"user", [textBlock prompt]⟩]

/-- Membership of an id in the list of already-seen tool_use ids. -/
def hasId : List String → String → Bool
  | [], _ => false
  | a :: as, b => (a == b) || hasId as b

/-- Well-formedness of a block sequence with respect to a list of already
seen tool_use ids: every tool_result block must reference a tool_use id
emitted earlier. -/
def wfBlocks : List String → List ContentBlock → Bool
  | _, [] => true
  | seen, b :: rest =>
    (b.type != "tool_result" || hasId seen b.toolUseID) &&
    wfBlocks (if b.type == "tool_use" then b.id :: seen else seen) rest

/-- The seen-id list after scanning a block sequence. -/
def seenAfter : List String → List ContentBlock → List String
  | seen, [] => seen
  | seen, b :: rest =>
    seenAfter (if b.type == "tool_use" then b.id :: seen else seen) rest

/-- All content blocks of a history, in order. -/
def blocksOf : List HistoryMessage → List ContentBlock
  | [] => []
  | m :: rest => m.content ++ blocksOf rest

/-- A history is well formed when every tool_result block references a
tool_use id appended earlier in the same history. -/
def wfHistory (messages : List HistoryMessage) : Bool :=
  wfBlocks [] (blocksOf messages)

/-- The flattened result text as section 4.5 of the specification words it:
the whitespace-trimmed concatenation of every item's text field when present;
kept separate from the source-derived flattenResultText so the two can be
compared. -/
def specFlattenedText (items : List MCPContentItem) : String :=
  trimSpace (items.foldl (fun acc it =>
    match it.textField with
    | Option.some t => acc ++ t
    | Option.none => acc) "")

/-- A backend whose every call succeeds with one text item, used as a
concrete witness input. -/
def wBackend : Backend := fun _ _ => Except.ok [⟨Option.some "hello"⟩]

/-- A concrete tool environment with one server. -/
def wEnv : List (String × Backend) := [("fetch", wBackend)]

/-- A concrete well-formed tool call against wEnv. -/
def wToolCall : ToolCall := ⟨"tc1", "fetch__get", Option.some "q"⟩

/-- A model message requesting one tool call. -/
def wMsgTool : LLMMessage := ⟨"assistant", "checking", [wToolCall], 0, 0⟩

/-- A model message with text only. -/
def wMsgDone : LLMMessage := ⟨"assistant", "done", [], 0, 0⟩

/-- A two-turn script: the first turn requests a tool, the second answers
with text only. -/
def wScript : List TurnScript :=
  [⟨Except.ok "m1", fun _ => Except.ok wMsgTool⟩,
   ⟨Except.ok "m2", fun _ => Except.ok wMsgDone⟩]

/-- The seed history for the prompt "hi". -/
def wHistory0 : List HistoryMessage := [⟨"user", [textBlock "hi"]⟩]

/-- The history the second scripted turn receives when running wScript from
wHistory0. -/
def wHistory1 : List HistoryMessage :=
  wHistory0 ++
    [⟨"assistant", [textBlock "checking", toolUseBlock "tc1" "fetch__get" "q"]⟩,
     ⟨"tool", [toolResultOkBlock "tc1" [⟨Option.some "hello"⟩] "hello"]⟩]

/-- A backend answering with two text items, used to exhibit the space
separator in the flattened text. -/
def wBackendTwo : Backend :=
  fun _ _ => Except.ok [⟨Option.some "a"⟩, ⟨Option.some "b"⟩]

/-- A concrete tool environment for the two-item backend. -/
def wEnvTwo : List (String × Backend) := [("srv", wBackendTwo)]

/-- A concrete tool call against wEnvTwo. -/
def wToolCallTwo : ToolCall := ⟨"id7", "srv__tl", Option.some "args"⟩

/-- A tool call whose name has no double-underscore delimiter. -/
def wToolCallBad : ToolCall := ⟨"idb", "badname", Option.some "args"⟩

/-- A backend whose every call fails. -/
def wBackendErr : Backend := fun _ _ => Except.error "boom"

/-- A concrete tool environment for the failing backend. -/
def wEnvErr : List (String × Backend) := [("srv", wBackendErr)]

/-- A concrete tool call against wEnvErr. -/
def wToolCallErr : ToolCall := ⟨"ide", "srv__tl", Option.some "args"⟩

/-- A model message requesting the failing tool call. -/
def wMsgToolErr : LLMMessage := ⟨"assistant", "t", [wToolCallErr], 0, 0⟩

/-- A two-turn script whose first turn requests the failing tool call. -/
def wScriptErr : List TurnScript :=
  [⟨Except.ok "m1", fun _ => Except.ok wMsgToolErr⟩,
   ⟨Except.ok "m2", fun _ => Except.ok wMsgDone⟩]

/-- A model message with empty text and no tool calls. -/
def wMsgEmpty : LLMMessage := ⟨"assistant", "", [], 0, 0⟩

/-- A turn whose placeholder post and first provider attempt both succeed. -/
def turnOk (t : TurnScript) : Prop :=
  (∃ v, t.postResult = Except.ok v) ∧ ∃ m, t.attemptOf 0 = Except.ok m

/-- The last scripted turn requests no tool calls. -/
def lastTurnNoTools : List TurnScript → Prop
  | [] => True
  | [t] => ∀ m, t.attemptOf 0 = Except.ok m → m.toolCalls = []
  | _ :: rest => lastTurnNoTools rest

/-- C1: when a session for a conversation key is already present in the
registry, a second register-if-absent for that key returns alreadyExists,
stores nothing new, and the middleware answers the duplicate event with an
accepted no-op response; under distinct keys the registry holds at most one
session per key, and both register-if-absent and removal preserve key
distinctness. -/
theorem C1_registry_dedup (reg : Registry) (channel ts user k : String)
    (s s2 : Session) (ex : Session) :
    (regLoad reg (sessionKey channel ts user) = Option.some ex →
      loadOrStore reg (sessionKey channel ts user) s = (reg, ex, true) ∧
      sessionMiddlewareStep reg channel ts user s =
        (reg, MWOutcome.noContent 202)) ∧
    ((reg.map Prod.fst).Nodup →
      (∀ key, (reg.map Prod.fst).count key ≤ 1) ∧
      ((loadOrStore reg k s2).1.map Prod.fst).Nodup ∧
      ((regDelete reg k).map Prod.fst).Nodup) := by
  constructor
  · intro h
    have hls : loadOrStore reg (sessionKey channel ts user) s = (reg, ex, true) := by
      unfold loadOrStore
      rw [h]
    refine ⟨hls, ?_⟩
    unfold sessionMiddlewareStep
    rw [hls]
    simp
  · intro hn
    refine ⟨fun key => List.nodup_iff_count_le_one.mp hn key, ?_, ?_⟩
    · unfold loadOrStore
      cases h2 : regLoad reg k with
      | some ex2 => exact hn
      | none =>
        have h3 : reg.find? (fun p => p.1 == k) = Option.none := by
          unfold regLoad at h2
          exact Option.map_eq_none'.mp h2
        have hk : k ∉ reg.map Prod.fst := by
          intro hmem
          rcases List.mem_map.mp hmem with ⟨p, hp, hpk⟩
          have := List.find?_eq_none.mp h3 p hp
          simp only [beq_iff_eq] at this
          exact this hpk
        simpa [List.nodup_append] using And.intro hn hk
    · exact hn.sublist ((reg.filter_sublist).map Prod.fst)

/-- C1 witness: a concrete registry already holding the key. -/
theorem C1_registry_dedup_witness :
    regLoad [(sessionKey "C" "T" "U", (⟨"U"⟩ : Session))]
        (sessionKey "C" "T" "U") = Option.some ⟨"U"⟩ ∧
    sessionMiddlewareStep [(sessionKey "C" "T" "U", (⟨"U"⟩ : Session))]
        "C" "T" "U" ⟨"S"⟩ =
      ([(sessionKey "C" "T" "U", ⟨"U"⟩)], MWOutcome.noContent 202) :=
  ⟨by decide,
   ((C1_registry_dedup [(sessionKey "C" "T" "U", ⟨"U"⟩)] "C" "T" "U" "k"
      ⟨"S"⟩ ⟨"S"⟩ ⟨"U"⟩).1 (by decide)).2⟩

/-- A retry attempt that succeeds returns its message at once, performing only
the provider-call effect. -/
theorem retryGo_succ_ok (a : Nat → Except String LLMMessage)
    (sr : String → Bool) (d : Nat → String → Nat × List Effect) (c : Effect)
    (n fuel : Nat) (m : LLMMessage) (hm : a n = Except.ok m) :
    retryGo a sr d c n (fuel + 1) = (Except.ok m, [c]) := by
  unfold retryGo
  rw [hm]

/-- A failing attempt whose error is retryable, with attempts remaining,
computes the delay, sleeps it, and continues with the next attempt. -/
theorem retryGo_succ_err_retry (a : Nat → Except String LLMMessage)
    (sr : String → Bool) (d : Nat → String → Nat × List Effect) (c : Effect)
    (n fuel : Nat) (e : String) (hm : a n = Except.error e)
    (hsr : sr e = true) (hf : fuel ≠ 0) :
    retryGo a sr d c n (fuel + 1) =
      ((retryGo a sr d c (n + 1) fuel).1,
       c :: ((d n e).2 ++ Effect.sleep (d n e).1 ::
         (retryGo a sr d c (n + 1) fuel).2)) := by
  have step : retryGo a sr d c n (fuel + 1) =
      (match a n with
       | Except.ok m => (Except.ok m, [c])
       | Except.error e =>
         if sr e && fuel != 0 then
           ((retryGo a sr d c (n + 1) fuel).1,
            c :: ((d n e).2 ++ Effect.sleep (d n e).1 ::
              (retryGo a sr d c (n + 1) fuel).2))
         else (Except.error e, [c])) := rfl
  rw [step, hm]
  simp [hsr, hf]

/-- A failing attempt whose error is not retryable, or with no attempts
remaining, surfaces that error at once. -/
theorem retryGo_succ_err_stop (a : Nat → Except String LLMMessage)
    (sr : String → Bool) (d : Nat → String → Nat × List Effect) (c : Effect)
    (n fuel : Nat) (e : String) (hm : a n = Except.error e)
    (h : sr e = false ∨ fuel = 0) :
    retryGo a sr d c n (fuel + 1) = (Except.error e, [c]) := by
  unfold retryGo
  rw [hm]
  rcases h with h | h <;> simp [h]

/-- C2: under the retry policy wrapping the provider call, four overloaded
failures followed by a success return that success with no error; five
overloaded failures make the loop surface the fifth error itself and update
the placeholder with the failure glyph; an error not classified overloaded is
surfaced at once with no further attempt. -/
theorem C2_retry_policy
    (a : Nat → Except String LLMMessage) (e0 e1 e2 e3 e4 : String)
    (m : LLMMessage) (d : Nat → String → Nat × List Effect) (c : Effect)
    (t : TurnScript) (rest : List TurnScript)
    (mc : List (String × Backend))
    (user channel threadTs prompt : String) (messages : List HistoryMessage)
    (v : String) :
    (a 0 = Except.error e0 → a 1 = Except.error e1 → a 2 = Except.error e2 →
      a 3 = Except.error e3 → a 4 = Except.ok m →
      stringsContains e0 "overloaded_error" = true →
      stringsContains e1 "overloaded_error" = true →
      stringsContains e2 "overloaded_error" = true →
      stringsContains e3 "overloaded_error" = true →
      (retryGo a (fun e => stringsContains e "overloaded_error") d c 0 5).1 =
        Except.ok m) ∧
    (t.postResult = Except.ok v →
      t.attemptOf 0 = Except.error e0 → t.attemptOf 1 = Except.error e1 →
      t.attemptOf 2 = Except.error e2 → t.attemptOf 3 = Except.error e3 →
      t.attemptOf 4 = Except.error e4 →
      stringsContains e0 "overloaded_error" = true →
      stringsContains e1 "overloaded_error" = true →
      stringsContains e2 "overloaded_error" = true →
      stringsContains e3 "overloaded_error" = true →
      (execute mc user channel threadTs (t :: rest) prompt messages).1 =
        Except.error e4 ∧
      Effect.update channel v ("<@" ++ user ++ "> \n" ++ "😵‍💫‍") ∈
        (execute mc user channel threadTs (t :: rest) prompt messages).2) ∧
    (∀ e, a 0 = Except.error e →
      stringsContains e "overloaded_error" = false →
      retryGo a (fun x => stringsContains x "overloaded_error") d c 0 5 =
        (Except.error e, [c])) := by
  refine ⟨?_, ?_, ?_⟩
  · intro h0 h1 h2 h3 h4 o0 o1 o2 o3
    have s0 := retryGo_succ_err_retry a (fun e => stringsContains e "overloaded_error") d c 0 4 e0 h0 o0 (by omega)
    have s1 := retryGo_succ_err_retry a (fun e => stringsContains e "overloaded_error") d c 1 3 e1 h1 o1 (by omega)
    have s2 := retryGo_succ_err_retry a (fun e => stringsContains e "overloaded_error") d c 2 2 e2 h2 o2 (by omega)
    have s3 := retryGo_succ_err_retry a (fun e => stringsContains e "overloaded_error") d c 3 1 e3 h3 o3 (by omega)
    have s4 := retryGo_succ_ok a
      (fun e => stringsContains e "overloaded_error") d c 4 0 m h4
    have n5 : (5 : Nat) = 4 + 1 := rfl
    have n4 : (4 : Nat) = 3 + 1 := rfl
    have n3 : (3 : Nat) = 2 + 1 := rfl
    have n2 : (2 : Nat) = 1 + 1 := rfl
    have n1 : (1 : Nat) = 0 + 1 := rfl
    rw [n5, s0, n4, s1, n3, s2, n2, s3, n1, s4]
  · intro hv h0 h1 h2 h3 h4 o0 o1 o2 o3
    have s0 := retryGo_succ_err_retry t.attemptOf
      (fun e => stringsContains e "overloaded_error")
      (llmRetryDelay user channel v) (Effect.llmCall prompt messages)
      0 4 e0 h0 o0 (by omega)
    have s1 := retryGo_succ_err_retry t.attemptOf
      (fun e => stringsContains e "overloaded_error")
      (llmRetryDelay user channel v) (Effect.llmCall prompt messages)
      1 3 e1 h1 o1 (by omega)
    have s2 := retryGo_succ_err_retry t.attemptOf
      (fun e => stringsContains e "overloaded_error")
      (llmRetryDelay user channel v) (Effect.llmCall prompt messages)
      2 2 e2 h2 o2 (by omega)
    have s3 := retryGo_succ_err_retry t.attemptOf
      (fun e => stringsContains e "overloaded_error")
      (llmRetryDelay user channel v) (Effect.llmCall prompt messages)
      3 1 e3 h3 o3 (by omega)
    have s4 := retryGo_succ_err_stop t.attemptOf
      (fun e => stringsContains e "overloaded_error")
      (llmRetryDelay user channel v) (Effect.llmCall prompt messages)
      4 0 e4 h4 (Or.inr rfl)
    have n5 : (5 : Nat) = 4 + 1 := rfl
    have n4 : (4 : Nat) = 3 + 1 := rfl
    have n3 : (3 : Nat) = 2 + 1 := rfl
    have n2 : (2 : Nat) = 1 + 1 := rfl
    have n1 : (1 : Nat) = 0 + 1 := rfl
    have hres : (retryGo t.attemptOf
        (fun e => stringsContains e "overloaded_error")
        (llmRetryDelay user channel v) (Effect.llmCall prompt messages)
        0 5).1 = Except.error e4 := by
      rw [n5, s0, n4, s1, n3, s2, n2, s3, n1, s4]
    constructor
    · simp only [execute, postMessage]
      rw [hv]
      simp only []
      rw [hres]
    · simp only [execute, postMessage]
      rw [hv]
      simp only []
      rw [hres]
      simp [updateMessage]
  · intro e h0 ho
    have := retryGo_succ_err_stop a
      (fun x => stringsContains x "overloaded_error") d c 0 4 e h0
      (Or.inl ho)
    simpa using this

/-- C2 witness: four overloaded failures then a success, five overloaded
failures surfacing the last error with the failure glyph, and a non-overloaded
error stopping at once. -/
theorem C2_retry_policy_witness :
    ((retryGo (fun n => if n < 4 then Except.error "overloaded_error hit"
        else Except.ok wMsgDone)
      (fun e => stringsContains e "overloaded_error")
      (llmRetryDelay "U" "C" "M") (Effect.llmCall "p" []) 0 5).1 =
      Except.ok wMsgDone) ∧
    ((execute [] "U" "C" "T"
        [⟨Except.ok "M", fun _ => Except.error "overloaded_error hit"⟩]
        "p" []).1 = Except.error "overloaded_error hit" ∧
      Effect.update "C" "M" ("<@" ++ "U" ++ "> \n" ++ "😵‍💫‍") ∈
        (execute [] "U" "C" "T"
          [⟨Except.ok "M", fun _ => Except.error "overloaded_error hit"⟩]
          "p" []).2) ∧
    retryGo (fun _ => Except.error "invalid_request_error")
      (fun x => stringsContains x "overloaded_error")
      (llmRetryDelay "U" "C" "M") (Effect.llmCall "p" []) 0 5 =
      (Except.error "invalid_request_error", [Effect.llmCall "p" []]) := by
  refine ⟨?_, ?_, ?_⟩
  · exact (C2_retry_policy
      (fun n => if n < 4 then Except.error "overloaded_error hit"
        else Except.ok wMsgDone)
      "overloaded_error hit" "overloaded_error hit" "overloaded_error hit"
      "overloaded_error hit" "overloaded_error hit" wMsgDone
      (llmRetryDelay "U" "C" "M") (Effect.llmCall "p" [])
      ⟨Except.ok "M", fun _ => Except.error "overloaded_error hit"⟩ [] []
      "U" "C" "T" "p" [] "M").1
      rfl rfl rfl rfl rfl (by decide) (by decide) (by decide) (by decide)
  · exact (C2_retry_policy
      (fun n => if n < 4 then Except.error "overloaded_error hit"
        else Except.ok wMsgDone)
      "overloaded_error hit" "overloaded_error hit" "overloaded_error hit"
      "overloaded_error hit" "overloaded_error hit" wMsgDone
      (llmRetryDelay "U" "C" "M") (Effect.llmCall "p" [])
      ⟨Except.ok "M", fun _ => Except.error "overloaded_error hit"⟩ [] []
      "U" "C" "T" "p" [] "M").2.1
      rfl rfl rfl rfl rfl rfl (by decide) (by decide) (by decide) (by decide)
  · exact (C2_retry_policy
      (fun _ => Except.error "invalid_request_error")
      "invalid_request_error" "e" "e" "e" "e" wMsgDone
      (llmRetryDelay "U" "C" "M") (Effect.llmCall "p" [])
      ⟨Except.ok "M", fun _ => Except.error "overloaded_error hit"⟩ [] []
      "U" "C" "T" "p" [] "M").2.2
      "invalid_request_error" rfl (by decide)

/-- C3 (amended): for every retried provider call whose error signals rate
limiting, the computed delay before the next attempt is at least 90 seconds
(the exponential backoff is raised to that floor when below it), and before
that attempt the placeholder is updated exactly once with the rate-limit
waiting message; the message states the pre-floor exponential backoff
duration, which understates the actual wait whenever the floor applies. -/
theorem C3_rate_limit_floor (user channel messageID : String) (n : Nat)
    (err : String) (a : Nat → Except String LLMMessage) (sr : String → Bool)
    (c : Effect) (fuel : Nat)
    (hrl : stringsContains err "rate_limit_error" = true) :
    durationForLLMRateLimitExceeded ≤
      (llmRetryDelay user channel messageID n err).1 ∧
    (llmRetryDelay user channel messageID n err).2 =
      [Effect.update channel messageID
        ("<@" ++ user ++ "> \n" ++ rateLimitWaitText (backOffDelay n))] ∧
    (a n = Except.error err → sr err = true → fuel ≠ 0 →
      retryGo a sr (llmRetryDelay user channel messageID) c n (fuel + 1) =
        ((retryGo a sr (llmRetryDelay user channel messageID) c
            (n + 1) fuel).1,
         c :: (Effect.update channel messageID
             ("<@" ++ user ++ "> \n" ++ rateLimitWaitText (backOffDelay n)) ::
           Effect.sleep (llmRetryDelay user channel messageID n err).1 ::
           (retryGo a sr (llmRetryDelay user channel messageID) c
             (n + 1) fuel).2))) := by
  have heffs : (llmRetryDelay user channel messageID n err).2 =
      [Effect.update channel messageID
        ("<@" ++ user ++ "> \n" ++ rateLimitWaitText (backOffDelay n))] := by
    unfold llmRetryDelay
    rw [hrl]
    simp only [updateMessage, if_true]
    split <;> rfl
  refine ⟨?_, heffs, ?_⟩
  · unfold llmRetryDelay
    rw [hrl]
    simp only []
    split
    · split
      · simp
      · next h => exact Nat.le_of_not_lt h
    · next h => simp at h
  · intro hm hsr hf
    have := retryGo_succ_err_retry a sr (llmRetryDelay user channel messageID)
      c n fuel err hm hsr hf
    rw [this, heffs]
    rfl

/-- C3 witness: a rate-limited overloaded error on the first attempt. -/
theorem C3_rate_limit_floor_witness :
    durationForLLMRateLimitExceeded ≤
      (llmRetryDelay "U" "C" "M" 0 "overloaded_error rate_limit_error").1 ∧
    retryGo (fun _ => Except.error "overloaded_error rate_limit_error")
        (fun e => stringsContains e "overloaded_error")
        (llmRetryDelay "U" "C" "M") (Effect.llmCall "p" []) 0 (1 + 1) =
      ((retryGo (fun _ => Except.error "overloaded_error rate_limit_error")
          (fun e => stringsContains e "overloaded_error")
          (llmRetryDelay "U" "C" "M") (Effect.llmCall "p" []) 1 1).1,
       Effect.llmCall "p" [] ::
         (Effect.update "C" "M"
             ("<@" ++ "U" ++ "> \n" ++ rateLimitWaitText (backOffDelay 0)) ::
          Effect.sleep
            (llmRetryDelay "U" "C" "M" 0
              "overloaded_error rate_limit_error").1 ::
          (retryGo (fun _ => Except.error "overloaded_error rate_limit_error")
            (fun e => stringsContains e "overloaded_error")
            (llmRetryDelay "U" "C" "M") (Effect.llmCall "p" []) 1 1).2)) :=
  ⟨(C3_rate_limit_floor "U" "C" "M" 0 "overloaded_error rate_limit_error"
      (fun _ => Except.error "overloaded_error rate_limit_error")
      (fun e => stringsContains e "overloaded_error")
      (Effect.llmCall "p" []) 1 (by decide)).1,
   (C3_rate_limit_floor "U" "C" "M" 0 "overloaded_error rate_limit_error"
      (fun _ => Except.error "overloaded_error rate_limit_error")
      (fun e => stringsContains e "overloaded_error")
      (Effect.llmCall "p" []) 1 (by decide)).2.2 rfl (by decide) (by decide)⟩

/-- C3 counterexample: at the first retry the delay actually waited is the
90-second floor, but the waiting message put into the placeholder states the
pre-floor backoff of 100000000 nanoseconds, so the message does not tell the
user how long the wait will be. -/
theorem C3_counterexample :
    (llmRetryDelay "U" "C" "M" 0 "rate_limit_error").1 =
      durationForLLMRateLimitExceeded ∧
    (llmRetryDelay "U" "C" "M" 0 "rate_limit_error").2 =
      [Effect.update "C" "M" ("<@U> \n" ++ rateLimitWaitText 100000000)] ∧
    rateLimitWaitText 100000000 ≠
      rateLimitWaitText (llmRetryDelay "U" "C" "M" 0 "rate_limit_error").1 :=
  by decide

/-- Structural shape of handleToolCall: a marshal failure yields nothing at
all; otherwise exactly the tool_use block is appended, and at most one
tool_result block carrying the same tool call id plus at most one backend
invocation are produced. -/
theorem handleToolCall_shape (env : List (String × Backend)) (tc : ToolCall) :
    handleToolCall env tc = ([], [], []) ∨
    ∃ input, tc.arguments = Option.some input ∧
      (handleToolCall env tc).1 = [toolUseBlock tc.id tc.name input] ∧
      ((handleToolCall env tc).2.1 = [] ∨
        (∃ er, (handleToolCall env tc).2.1 = [toolResultErrBlock tc.id er]) ∨
        (∃ items, (handleToolCall env tc).2.1 =
          [toolResultOkBlock tc.id items (flattenResultText items)])) ∧
      ((handleToolCall env tc).2.2 = [] ∨
        ∃ s t a2, (handleToolCall env tc).2.2 =
          [Effect.backendCall s t a2]) := by
  rcases ha : tc.arguments with _ | input
  · left
    unfold handleToolCall
    rw [ha]
  · right
    refine ⟨input, rfl, ?_⟩
    unfold handleToolCall
    rw [ha]
    simp only []
    rcases hs : stringsSplit tc.name "__" with _ | ⟨s1, _ | ⟨s2, _ | ⟨s3, rest⟩⟩⟩
    · simp
    · simp
    · rcases hf : env.find? (fun p => p.1 == s1) with _ | p
      · simp [hf]
      · rcases hb : p.2 s2 input with e | items
        · simp [hf, hb, toolResultErrBlock]
        · by_cases hi : items = []
          · simp [hf, hb, hi]
          · simp [hf, hb, hi, toolResultOkBlock]
    · simp

/-- Every message content block emitted by handleToolCall is the tool_use
block of that call. -/
theorem handleToolCall_mc (env : List (String × Backend)) (tc : ToolCall) :
    ∀ b ∈ (handleToolCall env tc).1,
      b.type = "tool_use" ∧ b.id = tc.id := by
  intro b hb
  rcases handleToolCall_shape env tc with h | ⟨input, _, h1, _, _⟩
  · rw [h] at hb
    simp at hb
  · rw [h1] at hb
    simp at hb
    subst hb
    exact ⟨rfl, rfl⟩

/-- Every tool result block emitted by handleToolCall is a tool_result block
referencing that call's id. -/
theorem handleToolCall_tr (env : List (String × Backend)) (tc : ToolCall) :
    ∀ b ∈ (handleToolCall env tc).2.1,
      b.type = "tool_result" ∧ b.toolUseID = tc.id := by
  intro b hb
  rcases handleToolCall_shape env tc with h | ⟨input, _, _, h2, _⟩
  · rw [h] at hb
    simp at hb
  · rcases h2 with h2 | ⟨er, h2⟩ | ⟨items, h2⟩ <;> rw [h2] at hb <;>
      simp at hb <;> subst hb <;> exact ⟨rfl, rfl⟩

/-- When handleToolCall emits a tool result, its tool_use block was emitted
as well. -/
theorem handleToolCall_tr_use (env : List (String × Backend)) (tc : ToolCall) :
    (handleToolCall env tc).2.1 ≠ [] →
    ∃ u ∈ (handleToolCall env tc).1,
      u.type = "tool_use" ∧ u.id = tc.id := by
  intro hne
  rcases handleToolCall_shape env tc with h | ⟨input, _, h1, _, _⟩
  · rw [h] at hne
    simp at hne
  · exact ⟨toolUseBlock tc.id tc.name input, by rw [h1]; simp, rfl, rfl⟩

/-- Every effect of handleToolCall is a backend invocation. -/
theorem handleToolCall_effects (env : List (String × Backend))
    (tc : ToolCall) :
    ∀ x ∈ (handleToolCall env tc).2.2,
      ∃ s t2 a2, x = Effect.backendCall s t2 a2 := by
  intro x hx
  rcases handleToolCall_shape env tc with h | ⟨input, _, _, _, h3⟩
  · rw [h] at hx
    simp at hx
  · rcases h3 with h3 | ⟨s, t2, a2, h3⟩ <;> rw [h3] at hx <;> simp at hx
    exact ⟨s, t2, a2, hx⟩

/-- Every message content block emitted by the tool-call loop is a tool_use
block. -/
theorem handleToolCalls_mc (env : List (String × Backend)) :
    ∀ l : List ToolCall, ∀ b ∈ (handleToolCalls env l).1,
      b.type = "tool_use" := by
  intro l
  induction l with
  | nil => intro b hb; simp [handleToolCalls] at hb
  | cons tc rest ih =>
    intro b hb
    simp only [handleToolCalls, List.mem_append] at hb
    rcases hb with hb | hb
    · exact (handleToolCall_mc env tc b hb).1
    · exact ih b hb

/-- Every tool result block emitted by the tool-call loop is a tool_result
block whose reference id matches a tool_use block emitted by the loop. -/
theorem handleToolCalls_tr (env : List (String × Backend)) :
    ∀ l : List ToolCall, ∀ b ∈ (handleToolCalls env l).2.1,
      b.type = "tool_result" ∧
      ∃ u ∈ (handleToolCalls env l).1,
        u.type = "tool_use" ∧ u.id = b.toolUseID := by
  intro l
  induction l with
  | nil => intro b hb; simp [handleToolCalls] at hb
  | cons tc rest ih =>
    intro b hb
    simp only [handleToolCalls, List.mem_append] at hb
    rcases hb with hb | hb
    · obtain ⟨hbt, hbu⟩ := handleToolCall_tr env tc b hb
      obtain ⟨u, hu, hut, hui⟩ := handleToolCall_tr_use env tc
        (by intro he; rw [he] at hb; simp at hb)
      exact ⟨hbt, u, by simp [handleToolCalls, List.mem_append]; left; exact hu,
        hut, by rw [hui, hbu]⟩
    · obtain ⟨hbt, u, hu, hut, hui⟩ := ih b hb
      exact ⟨hbt, u, by simp [handleToolCalls, List.mem_append]; right; exact hu,
        hut, hui⟩

/-- Every effect of the tool-call loop is a backend invocation. -/
theorem handleToolCalls_effects (env : List (String × Backend)) :
    ∀ l : List ToolCall, ∀ x ∈ (handleToolCalls env l).2.2,
      ∃ s t2 a2, x = Effect.backendCall s t2 a2 := by
  intro l
  induction l with
  | nil => intro x hx; simp [handleToolCalls] at hx
  | cons tc rest ih =>
    intro x hx
    simp only [handleToolCalls, List.mem_append] at hx
    rcases hx with hx | hx
    · exact handleToolCall_effects env tc x hx
    · exact ih x hx

/-- C5 (amended): the name "fetch__get" splits into server "fetch" and tool
"get" and is dispatched to that server's backend; a name that does not split
into exactly two parts on the double-underscore delimiter is not dispatched:
no backend invocation happens and no tool_result block is emitted, though the
already-appended tool_use content block remains. -/
theorem C5_tool_name_validation (env : List (String × Backend))
    (tc : ToolCall) (input : String) (b : Backend) (id args : String) :
    stringsSplit "fetch__get" "__" = ["fetch", "get"] ∧
    (handleToolCall [("fetch", b)] ⟨id, "fetch__get", Option.some args⟩).2.2 =
      [Effect.backendCall "fetch" "get" args] ∧
    (tc.arguments = Option.some input →
      (stringsSplit tc.name "__").length ≠ 2 →
      handleToolCall env tc = ([toolUseBlock tc.id tc.name input], [], [])) := by
  refine ⟨by decide, ?_, ?_⟩
  · rcases hb : b "get" args with e | items
    · simp [handleToolCall,
        (by decide : stringsSplit "fetch__get" "__" = ["fetch", "get"]),
        hb, List.find?]
    · by_cases hi : items = [] <;>
        simp [handleToolCall,
          (by decide : stringsSplit "fetch__get" "__" = ["fetch", "get"]),
          hb, hi, List.find?]
  · intro ha hlen
    unfold handleToolCall
    rw [ha]
    simp only []
    rcases hs : stringsSplit tc.name "__" with _ | ⟨s1, _ | ⟨s2, _ | ⟨s3, r2⟩⟩⟩
    · rfl
    · rfl
    · rw [hs] at hlen
      simp at hlen
    · rfl

/-- C5 witness: the invalid-format name "badname" yields only the tool_use
block, no tool_result and no backend invocation. -/
theorem C5_tool_name_validation_witness :
    (stringsSplit "badname" "__").length ≠ 2 ∧
    handleToolCall wEnvTwo wToolCallBad =
      ([toolUseBlock "idb" "badname" "args"], [], []) :=
  ⟨by decide,
   (C5_tool_name_validation wEnvTwo wToolCallBad "args" wBackendTwo "x"
     "y").2.2 rfl (by decide)⟩

/-- C5 counterexample: for the invalid-format name "badname" the dispatcher
still emits the tool_use content block, refuting that nothing at all is
emitted for an invalid-format name. -/
theorem C5_counterexample :
    handleToolCall wEnv wToolCallBad =
      ([toolUseBlock "idb" "badname" "args"], [], []) ∧
    (handleToolCall wEnv wToolCallBad).1 ≠ [] := by decide

/-- C6: a failing backend invocation is absorbed into a synthesized
tool_result block whose content carries a human-readable error string naming
the tool and the error, and tool backend outcomes never change the loop's
result: whatever the backends do, when every scripted turn's placeholder
post and first provider attempt succeed and the last scripted turn requests
no tools, the loop returns no error. -/
theorem C6_backend_error_absorbed
    (env : List (String × Backend)) (tc : ToolCall)
    (input serverName toolName e : String) (p : String × Backend)
    (mc : List (String × Backend)) (user channel threadTs : String) :
    (tc.arguments = Option.some input →
      stringsSplit tc.name "__" = [serverName, toolName] →
      env.find? (fun q => q.1 == serverName) = Option.some p →
      p.2 toolName input = Except.error e →
      handleToolCall env tc =
        ([toolUseBlock tc.id tc.name input],
         [toolResultErrBlock tc.id
           ("Error calling tool " ++ toolName ++ ": " ++ e)],
         [Effect.backendCall serverName toolName input])) ∧
    (∀ script prompt messages, script ≠ [] →
      (∀ t ∈ script, turnOk t) → lastTurnNoTools script →
      (execute mc user channel threadTs script prompt messages).1 =
        Except.ok ()) := by
  constructor
  · intro ha hs hf hb
    unfold handleToolCall
    rw [ha]
    simp only []
    rw [hs]
    simp only []
    rw [hf]
    simp only []
    rw [hb]
  · intro script
    induction script with
    | nil =>
      intro prompt messages hne _ _
      exact absurd rfl hne
    | cons t rest ih =>
      intro prompt messages _ hall hlast
      obtain ⟨⟨v, hv⟩, ⟨m, hm⟩⟩ := hall t (by simp)
      have h5 : retryGo t.attemptOf
          (fun e2 => stringsContains e2 "overloaded_error")
          (llmRetryDelay user channel v)
          (Effect.llmCall prompt messages) 0 5 =
          (Except.ok m, [Effect.llmCall prompt messages]) := by
        have := retryGo_succ_ok t.attemptOf
          (fun e2 => stringsContains e2 "overloaded_error")
          (llmRetryDelay user channel v)
          (Effect.llmCall prompt messages) 0 4 m hm
        simpa using this
      simp only [execute, postMessage]
      rw [hv]
      simp only []
      rw [h5]
      simp only []
      split
      · next hne2 =>
        rcases rest with _ | ⟨t2, rest2⟩
        · have hmt : m.toolCalls = [] := hlast m hm
          rw [hmt] at hne2
          simp [handleToolCalls] at hne2
        · have hrec := ih "" ((messages ++
            [(⟨m.role, (if m.content ≠ "" then
                ([textBlock m.content],
                 (updateMessage user channel v m.content).2)
              else ([], [Effect.delete channel v])).1 ++
              (handleToolCalls mc m.toolCalls).1⟩ : HistoryMessage)]) ++
            (handleToolCalls mc m.toolCalls).2.1.map
              (fun t3 => (⟨"tool", [t3]⟩ : HistoryMessage)))
            (by simp) (fun t3 ht3 => hall t3 (by simp [ht3]))
            hlast
          simpa using hrec
      · rfl

/-- C6 witness: a backend that always fails produces the synthesized error
tool_result, and a two-turn run over that backend still finishes with no
error. -/
theorem C6_backend_error_absorbed_witness :
    handleToolCall wEnvErr wToolCallErr =
      ([toolUseBlock "ide" "srv__tl" "args"],
       [toolResultErrBlock "ide" ("Error calling tool " ++ "tl" ++ ": " ++
         "boom")],
       [Effect.backendCall "srv" "tl" "args"]) ∧
    (execute wEnvErr "U" "C" "T" wScriptErr "hi" wHistory0).1 =
      Except.ok () := by
  constructor
  · exact (C6_backend_error_absorbed wEnvErr wToolCallErr "args" "srv" "tl"
      "boom" ("srv", wBackendErr) wEnvErr "U" "C" "T").1
      rfl (by decide) rfl rfl
  · exact (C6_backend_error_absorbed wEnvErr wToolCallErr "args" "srv" "tl"
      "boom" ("srv", wBackendErr) wEnvErr "U" "C" "T").2
      wScriptErr "hi" wHistory0 (by simp [wScriptErr])
      (by
        intro t ht
        simp [wScriptErr, List.mem_cons] at ht
        rcases ht with rfl | rfl
        · exact ⟨⟨"m1", rfl⟩, ⟨wMsgToolErr, rfl⟩⟩
        · exact ⟨⟨"m2", rfl⟩, ⟨wMsgDone, rfl⟩⟩)
      (by
        intro m hm
        cases hm
        rfl)

/-- The left fold deriving the flattened text equals a right fold appending
each present text field followed by a space. -/
theorem flatten_fold (its : List MCPContentItem) : ∀ acc : String,
    its.foldl (fun acc it =>
      match it.textField with
      | Option.some t => acc ++ t ++ " "
      | Option.none => acc) acc =
    acc ++ its.foldr (fun it acc =>
      match it.textField with
      | Option.some t => t ++ " " ++ acc
      | Option.none => acc) "" := by
  induction its with
  | nil =>
    intro acc
    simp
  | cons it rest ih =>
    intro acc
    cases h : it.textField with
    | none => simp [h, ih]
    | some t =>
      simp only [List.foldl_cons, List.foldr_cons, h]
      rw [ih]
      simp [String.append_assoc]

/-- C7 (amended): a successful backend invocation with non-empty result
content emits exactly one tool_result block whose derived text is the
whitespace-trimmed concatenation of every item's text field, each followed
by one space, for the items where it is present; with empty result content
no tool_result block is emitted while the tool_use record is still
appended. -/
theorem C7_result_flattening (env : List (String × Backend)) (tc : ToolCall)
    (input serverName toolName : String) (p : String × Backend)
    (items : List MCPContentItem) :
    (tc.arguments = Option.some input →
      stringsSplit tc.name "__" = [serverName, toolName] →
      env.find? (fun q => q.1 == serverName) = Option.some p →
      p.2 toolName input = Except.ok items →
      ((items ≠ [] →
        handleToolCall env tc =
          ([toolUseBlock tc.id tc.name input],
           [toolResultOkBlock tc.id items (flattenResultText items)],
           [Effect.backendCall serverName toolName input])) ∧
       (items = [] →
        handleToolCall env tc =
          ([toolUseBlock tc.id tc.name input], [],
           [Effect.backendCall serverName toolName input])))) ∧
    (∀ its : List MCPContentItem, flattenResultText its =
      trimSpace (its.foldr (fun it acc =>
        match it.textField with
        | Option.some t => t ++ " " ++ acc
        | Option.none => acc) "")) := by
  constructor
  · intro ha hs hf hb
    constructor
    · intro hne
      unfold handleToolCall
      rw [ha]
      simp only []
      rw [hs]
      simp only []
      rw [hf]
      simp only []
      rw [hb]
      simp only [if_neg hne]
    · intro hnil
      unfold handleToolCall
      rw [ha]
      simp only []
      rw [hs]
      simp only []
      rw [hf]
      simp only []
      rw [hb]
      simp only [if_pos hnil]
  · intro its
    unfold flattenResultText
    rw [flatten_fold]
    simp

/-- C7 witness: a backend answering two text items "a" and "b" emits one
tool_result block whose derived text is "a b". -/
theorem C7_result_flattening_witness :
    handleToolCall wEnvTwo wToolCallTwo =
      ([toolUseBlock "id7" "srv__tl" "args"],
       [toolResultOkBlock "id7" [⟨Option.some "a"⟩, ⟨Option.some "b"⟩]
         (flattenResultText [⟨Option.some "a"⟩, ⟨Option.some "b"⟩])],
       [Effect.backendCall "srv" "tl" "args"]) ∧
    flattenResultText [⟨Option.some "a"⟩, ⟨Option.some "b"⟩] = "a b" :=
  ⟨((C7_result_flattening wEnvTwo wToolCallTwo "args" "srv" "tl"
      ("srv", wBackendTwo) [⟨Option.some "a"⟩, ⟨Option.some "b"⟩]).1
      rfl (by decide) rfl rfl).1 (by decide),
   by decide⟩

/-- C7 counterexample: with two result items "a" and "b" the source derives
"a b" (space separated) while the concatenation worded by the specification
gives "ab"; the two differ. -/
theorem C7_counterexample :
    (handleToolCall wEnvTwo wToolCallTwo).2.1 =
      [toolResultOkBlock "id7" [⟨Option.some "a"⟩, ⟨Option.some "b"⟩] "a b"] ∧
    specFlattenedText [⟨Option.some "a"⟩, ⟨Option.some "b"⟩] = "ab" ∧
    flattenResultText [⟨Option.some "a"⟩, ⟨Option.some "b"⟩] ≠
      specFlattenedText [⟨Option.some "a"⟩, ⟨Option.some "b"⟩] := by decide

/-- C9: when the model's response has empty text content and requests no
tool calls, the placeholder is deleted rather than updated, no recursion
happens, and the loop terminates with no error: the run performs exactly the
placeholder post, one provider call, and the deletion. -/
theorem C9_empty_response (mc : List (String × Backend))
    (user channel threadTs prompt : String) (messages : List HistoryMessage)
    (rest : List TurnScript) (t : TurnScript) (v : String) (m : LLMMessage)
    (hv : t.postResult = Except.ok v) (hm : t.attemptOf 0 = Except.ok m)
    (hc : m.content = "") (ht : m.toolCalls = []) :
    execute mc user channel threadTs (t :: rest) prompt messages =
      (Except.ok (),
       [Effect.post channel ("<@" ++ user ++ "> \n" ++ "⌛ Thinking...")
          threadTs,
        Effect.llmCall prompt messages,
        Effect.delete channel v]) := by
  have h5 : retryGo t.attemptOf
      (fun e2 => stringsContains e2 "overloaded_error")
      (llmRetryDelay user channel v)
      (Effect.llmCall prompt messages) 0 5 =
      (Except.ok m, [Effect.llmCall prompt messages]) := by
    have := retryGo_succ_ok t.attemptOf
      (fun e2 => stringsContains e2 "overloaded_error")
      (llmRetryDelay user channel v)
      (Effect.llmCall prompt messages) 0 4 m hm
    simpa using this
  simp only [execute, postMessage]
  rw [hv]
  simp only []
  rw [h5]
  simp only []
  simp [hc, ht, handleToolCalls]

/-- C9 witness: a concrete run with an empty text, tool-less response. -/
theorem C9_empty_response_witness :
    execute [] "U" "C" "T" [⟨Except.ok "m1", fun _ => Except.ok wMsgEmpty⟩]
        "hi" wHistory0 =
      (Except.ok (),
       [Effect.post "C" ("<@" ++ "U" ++ "> \n" ++ "⌛ Thinking...") "T",
        Effect.llmCall "hi" wHistory0,
        Effect.delete "C" "m1"]) :=
  C9_empty_response [] "U" "C" "T" "hi" wHistory0 []
    ⟨Except.ok "m1", fun _ => Except.ok wMsgEmpty⟩ "m1" wMsgEmpty
    rfl rfl rfl rfl

/-- C8: Execute called with an empty prompt as the very first turn returns
the empty-prompt error with no chat message posted and no provider invoked;
the internal loop entered on recursive continuation turns accepts an empty
prompt and returns no error there, and the continuation turn of a run with
tool results is invoked with the empty prompt. -/
theorem C8_empty_prompt (mc : List (String × Backend))
    (script : List TurnScript) (user channel threadTs : String)
    (messages : List HistoryMessage) (t : TurnScript) (v : String)
    (m : LLMMessage) :
    Execute mc script user channel threadTs "" =
      (Except.error ErrEmptyPrompt, []) ∧
    (t.postResult = Except.ok v → t.attemptOf 0 = Except.ok m →
      m.toolCalls = [] →
      (execute mc user channel threadTs [t] "" messages).1 =
        Except.ok ()) ∧
    Effect.llmCall "" wHistory1 ∈
      (Execute wEnv wScript "U" "C" "T" "hi").2 := by
  refine ⟨by simp [Execute], ?_, ?_⟩
  · intro hv hm ht
    have h5 : retryGo t.attemptOf
        (fun e2 => stringsContains e2 "overloaded_error")
        (llmRetryDelay user channel v)
        (Effect.llmCall "" messages) 0 5 =
        (Except.ok m, [Effect.llmCall "" messages]) := by
      have := retryGo_succ_ok t.attemptOf
        (fun e2 => stringsContains e2 "overloaded_error")
        (llmRetryDelay user channel v)
        (Effect.llmCall "" messages) 0 4 m hm
      simpa using this
    simp only [execute, postMessage]
    rw [hv]
    simp only []
    rw [h5]
    simp only []
    simp [ht, handleToolCalls]
  · decide

/-- C8 witness: the loop invoked directly with an empty prompt on a good
one-turn script finishes with no error. -/
theorem C8_empty_prompt_witness :
    (execute [] "U" "C" "T" [⟨Except.ok "m1", fun _ => Except.ok wMsgDone⟩]
        "" wHistory0).1 = Except.ok () :=
  (C8_empty_prompt [] [] "U" "C" "T" wHistory0
    ⟨Except.ok "m1", fun _ => Except.ok wMsgDone⟩ "m1" wMsgDone).2.1
    rfl rfl rfl

/-- Growing the seen list keeps an id found. -/
theorem hasId_cons_mono (x a : String) (seen : List String)
    (h : hasId seen a = true) : hasId (x :: seen) a = true := by
  simp [hasId, h]

/-- Scanning more blocks keeps an id found. -/
theorem hasId_seenAfter (bs : List ContentBlock) : ∀ seen a,
    hasId seen a = true → hasId (seenAfter seen bs) a = true := by
  induction bs with
  | nil => intro seen a h; simpa [seenAfter] using h
  | cons b rest ih =>
    intro seen a h
    simp only [seenAfter]
    apply ih
    by_cases hb : b.type == "tool_use" <;> simp [hb, hasId, h]

/-- Every tool_use block in a scanned sequence contributes its id. -/
theorem seenAfter_mem (bs : List ContentBlock) : ∀ seen u, u ∈ bs →
    u.type = "tool_use" → hasId (seenAfter seen bs) u.id = true := by
  induction bs with
  | nil => intro seen u h; simp at h
  | cons b rest ih =>
    intro seen u hu hut
    rcases List.mem_cons.mp hu with rfl | hu2
    · simp only [seenAfter]
      apply hasId_seenAfter
      simp [hut, hasId]
    · simp only [seenAfter]
      exact ih _ u hu2 hut

/-- The seen ids after a concatenation are the seen ids of the second part
scanned after the first. -/
theorem seenAfter_append (xs ys : List ContentBlock) : ∀ seen,
    seenAfter seen (xs ++ ys) = seenAfter (seenAfter seen xs) ys := by
  induction xs with
  | nil => intro seen; rfl
  | cons b rest ih => intro seen; simp [seenAfter, ih]

/-- Well-formedness of an appended block sequence decomposes into the two
halves, the second scanned under the ids of the first. -/
theorem wfBlocks_append (xs ys : List ContentBlock) : ∀ seen,
    wfBlocks seen (xs ++ ys) =
      (wfBlocks seen xs && wfBlocks (seenAfter seen xs) ys) := by
  induction xs with
  | nil => intro seen; simp [wfBlocks, seenAfter]
  | cons b rest ih =>
    intro seen
    simp [wfBlocks, seenAfter, ih, Bool.and_assoc]

/-- A block sequence whose tool_result references are all already seen is
well formed. -/
theorem wfBlocks_of_hasId (bs : List ContentBlock) : ∀ seen,
    (∀ b ∈ bs, b.type = "tool_result" → hasId seen b.toolUseID = true) →
    wfBlocks seen bs = true := by
  induction bs with
  | nil => intro seen _; rfl
  | cons b rest ih =>
    intro seen h
    simp only [wfBlocks, Bool.and_eq_true]
    constructor
    · by_cases hb : b.type = "tool_result"
      · simp [hb, h b (by simp) hb]
      · simp [hb]
    · apply ih
      intro b2 hb2 hbt
      have h2 := h b2 (by simp [hb2]) hbt
      by_cases hbu : b.type == "tool_use" <;> simp [hbu, hasId, h2]

/-- blocksOf distributes over history concatenation. -/
theorem blocksOf_append (xs ys : List HistoryMessage) :
    blocksOf (xs ++ ys) = blocksOf xs ++ blocksOf ys := by
  induction xs with
  | nil => simp [blocksOf]
  | cons m rest ih => simp [blocksOf, ih]

/-- blocksOf of the per-result tool messages is the result list itself. -/
theorem blocksOf_map_tool (trs : List ContentBlock) :
    blocksOf (trs.map (fun t => (⟨"tool", [t]⟩ : HistoryMessage))) = trs := by
  induction trs with
  | nil => rfl
  | cons t rest ih => simp [blocksOf, ih]

/-- Appending one assistant message free of tool_result blocks, followed by
one tool message per tool_result block whose reference id matches a tool_use
block of that assistant message, preserves history well-formedness. -/
theorem wfHistory_extend (messages : List HistoryMessage) (role : String)
    (amsg : List ContentBlock) (trs : List ContentBlock)
    (hwf : wfHistory messages = true)
    (hmc : ∀ b ∈ amsg, b.type ≠ "tool_result")
    (htr : ∀ b ∈ trs, ∃ u ∈ amsg, u.type = "tool_use" ∧
      u.id = b.toolUseID) :
    wfHistory ((messages ++ [(⟨role, amsg⟩ : HistoryMessage)]) ++
      trs.map (fun t => (⟨"tool", [t]⟩ : HistoryMessage))) = true := by
  unfold wfHistory
  rw [blocksOf_append, blocksOf_append, blocksOf_map_tool]
  have hone : blocksOf [(⟨role, amsg⟩ : HistoryMessage)] = amsg := by
    simp [blocksOf]
  rw [hone, wfBlocks_append, wfBlocks_append, seenAfter_append]
  have h1 : wfBlocks [] (blocksOf messages) = true := hwf
  have h2 : wfBlocks (seenAfter [] (blocksOf messages)) amsg = true := by
    apply wfBlocks_of_hasId
    intro b hb hbt
    exact absurd hbt (hmc b hb)
  have h3 : wfBlocks (seenAfter (seenAfter [] (blocksOf messages)) amsg)
      trs = true := by
    apply wfBlocks_of_hasId
    intro b hb _
    obtain ⟨u, hu, hut, hui⟩ := htr b hb
    rw [← hui]
    exact seenAfter_mem amsg _ u hu hut
  rw [h1, h2, h3]
  rfl

/-- Every update effect of the delay function targets the placeholder and
carries the user mention. -/
theorem llmRetryDelay_effects (u2 ch id : String) (k : Nat) (err : String) :
    ∀ x ∈ (llmRetryDelay u2 ch id k err).2,
      ∃ msg, x = Effect.update ch id ("<@" ++ u2 ++ "> \n" ++ msg) := by
  intro x hx
  unfold llmRetryDelay at hx
  by_cases hc : stringsContains err "rate_limit_error"
  · by_cases hd : backOffDelay k < durationForLLMRateLimitExceeded <;>
      simp [hc, hd, updateMessage] at hx <;>
      exact ⟨rateLimitWaitText (backOffDelay k), by rw [hx]⟩
  · simp [hc] at hx

/-- Every effect of the retry combinator is the provider-call effect, a
sleep, or an effect of the delay function. -/
theorem retryGo_effects (P : Effect → Prop)
    (a : Nat → Except String LLMMessage) (sr : String → Bool)
    (d : Nat → String → Nat × List Effect) (c : Effect)
    (hc : P c) (hs : ∀ ns, P (Effect.sleep ns))
    (hd : ∀ k err, ∀ x ∈ (d k err).2, P x) :
    ∀ fuel n, ∀ x ∈ (retryGo a sr d c n fuel).2, P x := by
  intro fuel
  induction fuel with
  | zero =>
    intro n x hx
    simp [retryGo] at hx
  | succ f ih =>
    intro n x hx
    rcases ha : a n with e | m
    · by_cases hsr : sr e = true
      · by_cases hf : f = 0
        · rw [retryGo_succ_err_stop a sr d c n f e ha (Or.inr hf)] at hx
          simp at hx
          rw [hx]
          exact hc
        · rw [retryGo_succ_err_retry a sr d c n f e ha hsr hf] at hx
          simp only [List.mem_cons, List.mem_append] at hx
          rcases hx with rfl | hx | rfl | hx2
          · exact hc
          · exact hd n e x hx
          · exact hs _
          · exact ih (n + 1) x hx2
      · rw [retryGo_succ_err_stop a sr d c n f e ha
          (Or.inl (by simpa using hsr))] at hx
        simp at hx
        rw [hx]
        exact hc
    · rw [retryGo_succ_ok a sr d c n f m ha] at hx
      simp at hx
      rw [hx]
      exact hc

/-- One iteration's history growth preserves well-formedness: the assistant
message carries only non-tool_result blocks, and every appended tool message
references a tool_use block of that assistant message. -/
theorem execute_step_wf (mc : List (String × Backend)) (m : LLMMessage)
    (messages : List HistoryMessage) (tbc : List ContentBlock)
    (htb : ∀ b ∈ tbc, b.type ≠ "tool_result")
    (hw : wfHistory messages = true) :
    wfHistory ((messages ++
      [(⟨m.role, tbc ++ (handleToolCalls mc m.toolCalls).1⟩ :
        HistoryMessage)]) ++
      (handleToolCalls mc m.toolCalls).2.1.map
        (fun t3 => (⟨"tool", [t3]⟩ : HistoryMessage))) = true := by
  apply wfHistory_extend _ _ _ _ hw
  · intro b hb
    rcases List.mem_append.mp hb with hb2 | hb2
    · exact htb b hb2
    · have h2 := handleToolCalls_mc mc m.toolCalls b hb2
      simp [h2]
  · intro b hb
    obtain ⟨hbt, u, hu, hut, hui⟩ := handleToolCalls_tr mc m.toolCalls b hb
    exact ⟨u, List.mem_append_right _ hu, hut, hui⟩

/-- Soundness of the loop's effect trace: every effect is a mention-formatted
post to the target channel and thread, a mention-formatted update in the
target channel, a deletion in the target channel, a provider call whose
history is well formed whenever the starting history is, a backend
invocation, or a retry sleep. -/
theorem execute_trace_sound (mc : List (String × Backend))
    (user channel threadTs : String) :
    ∀ script prompt messages,
      ∀ x ∈ (execute mc user channel threadTs script prompt messages).2,
        (∃ msg ts, x = Effect.post channel
          ("<@" ++ user ++ "> \n" ++ msg) ts) ∨
        (∃ id msg, x = Effect.update channel id
          ("<@" ++ user ++ "> \n" ++ msg)) ∨
        (∃ id, x = Effect.delete channel id) ∨
        (∃ p2 h2, x = Effect.llmCall p2 h2 ∧
          (wfHistory messages = true → wfHistory h2 = true)) ∨
        (∃ s t2 a2, x = Effect.backendCall s t2 a2) ∨
        (∃ ns, x = Effect.sleep ns) := by
  intro script
  induction script with
  | nil =>
    intro prompt messages x hx
    simp [execute] at hx
  | cons t rest ih =>
    intro prompt messages x hx
    rcases hv : t.postResult with e | v
    · simp only [execute, postMessage] at hx
      rw [hv] at hx
      simp only [] at hx
      simp at hx
      exact Or.inl ⟨"⌛ Thinking...", threadTs, hx⟩
    · simp only [execute, postMessage] at hx
      rw [hv] at hx
      simp only [] at hx
      have hPP := retryGo_effects
        (fun y =>
          (∃ msg ts, y = Effect.post channel
            ("<@" ++ user ++ "> \n" ++ msg) ts) ∨
          (∃ id msg, y = Effect.update channel id
            ("<@" ++ user ++ "> \n" ++ msg)) ∨
          (∃ id, y = Effect.delete channel id) ∨
          (∃ p2 h2, y = Effect.llmCall p2 h2 ∧
            (wfHistory messages = true → wfHistory h2 = true)) ∨
          (∃ s t2 a2, y = Effect.backendCall s t2 a2) ∨
          (∃ ns, y = Effect.sleep ns))
        t.attemptOf (fun e2 => stringsContains e2 "overloaded_error")
        (llmRetryDelay user channel v) (Effect.llmCall prompt messages)
        (Or.inr (Or.inr (Or.inr (Or.inl ⟨prompt, messages, rfl,
          fun hw => hw⟩))))
        (fun ns => Or.inr (Or.inr (Or.inr (Or.inr (Or.inr ⟨ns, rfl⟩)))))
        (fun k err y hy => by
          obtain ⟨msg, hmsg⟩ := llmRetryDelay_effects user channel v k err y hy
          exact Or.inr (Or.inl ⟨v, msg, hmsg⟩))
        5 0
      rcases hr : (retryGo t.attemptOf
          (fun e2 => stringsContains e2 "overloaded_error")
          (llmRetryDelay user channel v)
          (Effect.llmCall prompt messages) 0 5).1 with e | m
      · rw [hr] at hx
        simp only [updateMessage, List.mem_append, List.mem_singleton] at hx
        rcases hx with (hx | hx) | hx
        · exact Or.inl ⟨"⌛ Thinking...", threadTs, hx⟩
        · exact hPP x hx
        · exact Or.inr (Or.inl ⟨v, "😵‍💫‍", hx⟩)
      · rw [hr] at hx
        simp only [] at hx
        by_cases hcon : m.content = ""
        · simp only [hcon, ne_eq, not_true_eq_false, if_false,
            updateMessage] at hx
          by_cases hne : (handleToolCalls mc m.toolCalls).2.1 = []
          · simp only [hne, ne_eq, not_true_eq_false, if_false,
              List.mem_append, List.mem_singleton] at hx
            rcases hx with ((hx | hx) | hx) | hx
            · exact Or.inl ⟨"⌛ Thinking...", threadTs, hx⟩
            · exact hPP x hx
            · exact Or.inr (Or.inr (Or.inl ⟨v, hx⟩))
            · obtain ⟨s, t2, a2, hba⟩ :=
                handleToolCalls_effects mc m.toolCalls x hx
              exact Or.inr (Or.inr (Or.inr (Or.inr (Or.inl ⟨s, t2, a2, hba⟩))))
          · simp only [hne, ne_eq, not_false_eq_true, if_true,
              List.mem_append, List.mem_singleton] at hx
            rcases hx with (((hx | hx) | hx) | hx) | hx
            · exact Or.inl ⟨"⌛ Thinking...", threadTs, hx⟩
            · exact hPP x hx
            · exact Or.inr (Or.inr (Or.inl ⟨v, hx⟩))
            · obtain ⟨s, t2, a2, hba⟩ :=
                handleToolCalls_effects mc m.toolCalls x hx
              exact Or.inr (Or.inr (Or.inr (Or.inr (Or.inl ⟨s, t2, a2, hba⟩))))
            · have hrec := ih "" ((messages ++
                [(⟨m.role, [] ++ (handleToolCalls mc m.toolCalls).1⟩ :
                  HistoryMessage)]) ++
                (handleToolCalls mc m.toolCalls).2.1.map
                  (fun t3 => (⟨"tool", [t3]⟩ : HistoryMessage))) x
                (by simpa using hx)
              rcases hrec with hrec | hrec | hrec | hrec | hrec | hrec
              · exact Or.inl hrec
              · exact Or.inr (Or.inl hrec)
              · exact Or.inr (Or.inr (Or.inl hrec))
              · obtain ⟨p2, h2, hxeq, himp⟩ := hrec
                refine Or.inr (Or.inr (Or.inr (Or.inl ⟨p2, h2, hxeq, ?_⟩)))
                intro hw
                exact himp (execute_step_wf mc m messages []
                  (by intro b hb; simp at hb) hw)
              · exact Or.inr (Or.inr (Or.inr (Or.inr (Or.inl hrec))))
              · exact Or.inr (Or.inr (Or.inr (Or.inr (Or.inr hrec))))
        · simp only [hcon, ne_eq, not_false_eq_true, if_true,
            updateMessage] at hx
          by_cases hne : (handleToolCalls mc m.toolCalls).2.1 = []
          · simp only [hne, ne_eq, not_true_eq_false, if_false,
              List.mem_append, List.mem_singleton] at hx
            rcases hx with ((hx | hx) | hx) | hx
            · exact Or.inl ⟨"⌛ Thinking...", threadTs, hx⟩
            · exact hPP x hx
            · exact Or.inr (Or.inl ⟨v, m.content, hx⟩)
            · obtain ⟨s, t2, a2, hba⟩ :=
                handleToolCalls_effects mc m.toolCalls x hx
              exact Or.inr (Or.inr (Or.inr (Or.inr (Or.inl ⟨s, t2, a2, hba⟩))))
          · simp only [hne, ne_eq, not_false_eq_true, if_true,
              List.mem_append, List.mem_singleton] at hx
            rcases hx with (((hx | hx) | hx) | hx) | hx
            · exact Or.inl ⟨"⌛ Thinking...", threadTs, hx⟩
            · exact hPP x hx
            · exact Or.inr (Or.inl ⟨v, m.content, hx⟩)
            · obtain ⟨s, t2, a2, hba⟩ :=
                handleToolCalls_effects mc m.toolCalls x hx
              exact Or.inr (Or.inr (Or.inr (Or.inr (Or.inl ⟨s, t2, a2, hba⟩))))
            · have hrec := ih "" ((messages ++
                [(⟨m.role, [textBlock m.content] ++
                  (handleToolCalls mc m.toolCalls).1⟩ : HistoryMessage)]) ++
                (handleToolCalls mc m.toolCalls).2.1.map
                  (fun t3 => (⟨"tool", [t3]⟩ : HistoryMessage))) x
                (by simpa using hx)
              rcases hrec with hrec | hrec | hrec | hrec | hrec | hrec
              · exact Or.inl hrec
              · exact Or.inr (Or.inl hrec)
              · exact Or.inr (Or.inr (Or.inl hrec))
              · obtain ⟨p2, h2, hxeq, himp⟩ := hrec
                refine Or.inr (Or.inr (Or.inr (Or.inl ⟨p2, h2, hxeq, ?_⟩)))
                intro hw
                exact himp (execute_step_wf mc m messages
                  [textBlock m.content]
                  (by intro b hb; simp at hb; rw [hb]; simp [textBlock]) hw)
              · exact Or.inr (Or.inr (Or.inr (Or.inr (Or.inl hrec))))
              · exact Or.inr (Or.inr (Or.inr (Or.inr (Or.inr hrec))))

/-- C4: every history the execution loop hands to the provider — across all
recursive continuation turns — is well formed: every tool_result content
block references a tool_use content block id appended earlier in the same
history. -/
theorem C4_tool_result_references (mc : List (String × Backend))
    (user channel threadTs : String) (script : List TurnScript)
    (prompt : String) (messages : List HistoryMessage)
    (hwf : wfHistory messages = true) :
    ∀ p h, Effect.llmCall p h ∈
        (execute mc user channel threadTs script prompt messages).2 →
      wfHistory h = true := by
  intro p h hx
  rcases execute_trace_sound mc user channel threadTs script prompt messages
      _ hx with
    ⟨msg, ts, he⟩ | ⟨id, msg, he⟩ | ⟨id, he⟩ | ⟨p2, h2, he, himp⟩ |
    ⟨s, t2, a2, he⟩ | ⟨ns, he⟩
  · cases he
  · cases he
  · cases he
  · cases he
    exact himp hwf
  · cases he
  · cases he

/-- C4 witness: the two-turn scripted run produces the well-formed
continuation history wHistory1, in which the tool_result block references
the earlier tool_use id. -/
theorem C4_tool_result_references_witness :
    wfHistory wHistory0 = true ∧ wfHistory wHistory1 = true :=
  ⟨by decide,
   C4_tool_result_references wEnv "U" "C" "T" wScript "hi" wHistory0
     (by decide) "" wHistory1 (by decide)⟩

/-- C10: every chat message the core posts or updates — the placeholder, the
model text, the rate-limit waiting notice, and the failure glyph — has its
text prefixed with a mention of the originating user followed by a newline:
the text is "<@user> \n" followed by the message body. -/
theorem C10_user_mention (mc : List (String × Backend))
    (user channel threadTs : String) (script : List TurnScript)
    (prompt : String) (messages : List HistoryMessage) :
    ∀ x ∈ (execute mc user channel threadTs script prompt messages).2,
      (∀ ch txt ts, x = Effect.post ch txt ts →
        ∃ msg, txt = "<@" ++ user ++ "> \n" ++ msg) ∧
      (∀ ch id txt, x = Effect.update ch id txt →
        ∃ msg, txt = "<@" ++ user ++ "> \n" ++ msg) := by
  intro x hx
  rcases execute_trace_sound mc user channel threadTs script prompt messages
      _ hx with
    ⟨msg, ts, he⟩ | ⟨id, msg, he⟩ | ⟨id, he⟩ | ⟨p2, h2, he, himp⟩ |
    ⟨s, t2, a2, he⟩ | ⟨ns, he⟩ <;>
    subst he <;> constructor <;> intro ch txt ts2 heq <;> cases heq <;>
    exact ⟨_, rfl⟩

/-- C10 witness: the placeholder post of a concrete run carries the user
mention prefix. -/
theorem C10_user_mention_witness :
    ∃ msg, ("<@" ++ "U" ++ "> \n" ++ "⌛ Thinking...") =
      "<@" ++ "U" ++ "> \n" ++ msg :=
  (C10_user_mention wEnv "U" "C" "T" wScript "hi" wHistory0
    (Effect.post "C" ("<@" ++ "U" ++ "> \n" ++ "⌛ Thinking...") "T")
    (by decide)).1 "C" ("<@" ++ "U" ++ "> \n" ++ "⌛ Thinking...") "T" rfl

end SlackbotMCPHost
